import Mathlib

/-!
Verification of `Scripts/generate_materials_template.py`.

The script reads a JSON-with-inline-comments materials file, groups the
entries by row order, packs each row group into a dense sequence of cells
(labels, data swatches, blank fillers) and renders the result as an HTML
table.  The definitions below are a shallow embedding of that script:

* `stripLine` models the per-line comment stripping
  (`re.sub(r"^(.*?)(//.+)?$", r"\1", line)` on a line without its newline);
* `parseElem` / `parseAll` model the template-field parsing loop with its
  assertions (lines 32-53);
* `bucket` / `sortedKeys` model the row grouping and sorting (lines 52-57, 76);
* `go` / `assemble` model the packing loop (lines 83-97), the core;
* `renderColorCell`, `renderNameCell`, `renderDataCell`, `rowHtml`,
  `generateHtml`, `run` model the HTML generation (lines 64-145).

Machine integers of the script are arbitrary-precision Python ints, embedded
as `Int`.  The floating-point mass fields are never inspected by the logic
under scrutiny; the already-formatted product of nominal mass and density is
kept as the opaque string field `mass_text`.
-/

/-- The payload of one input entry, as consumed by the script: the raw
`template.row` string, the raw `template.column` value (after Python `str`),
and the fields read back by the renderer.  `mass_text` stands for the
rendered two-decimal product of the two floating-point mass fields, which
the grid logic never inspects. -/
structure RawElem where
  rowField : String
  columnField : String
  color_key : String
  mass_text : String
  strength : String
  stiffness : String
deriving DecidableEq

/-- One parsed entry: the tuple `(row_name, col_order, col_name, elem)`
built at line 53 of the script. -/
structure ColValue where
  row_name : String
  col_order : Int
  col_name : String
  material : RawElem
deriving DecidableEq

/-- One cell of an assembled physical row: the script appends either the
row-name string (a label), the whole input tuple (a data cell) or `None`
(a blank filler). -/
inductive Cell where
  | label : String → Cell
  | data : ColValue → Cell
  | blank : Cell
deriving DecidableEq

/-- First component of the termination measure refinement: `1` while the
current record still needs a label transition, else `0`. -/
def labelNeed : List ColValue → Option String → Nat
  | [], _ => 0
  | r :: _, cur => if some r.row_name ≠ cur then 1 else 0

/-- Number of blank cells still owed to the current record. -/
def gapSize : List ColValue → Nat → List Cell → Nat
  | [], _, _ => 0
  | r :: _, labels_count, output => (r.col_order + (labels_count : Int) - (output.length : Int)).toNat

/-- The packing loop of the script (lines 86-97):

    while ci < len(input_col_values):
        input_col_value = input_col_values[ci]
        if input_col_value[1] + labels_count <= len(output_col_values):
            if input_col_value[0] != cur_row_name:
                output_col_values.append(input_col_value[0])
                labels_count += 1
                cur_row_name = input_col_value[0]
            else:
                output_col_values.append(input_col_value)
                ci += 1
        else:
            output_col_values.append(None)

`cols` is the suffix of `input_col_values` from the cursor `ci` on. -/
def go (cols : List ColValue) (labels_count : Nat) (cur_row_name : Option String)
    (output : List Cell) : List Cell :=
  match cols with
  | [] => output
  | r :: rest =>
    if h1 : r.col_order + (labels_count : Int) ≤ (output.length : Int) then
      if h2 : some r.row_name ≠ cur_row_name then
        go (r :: rest) (labels_count + 1) (some r.row_name) (output ++ [Cell.label r.row_name])
      else
        go rest labels_count cur_row_name (output ++ [Cell.data r])
    else
      go (r :: rest) labels_count cur_row_name (output ++ [Cell.blank])
termination_by (cols.length, labelNeed cols cur_row_name, gapSize cols labels_count output)
decreasing_by
  · apply Prod.Lex.right
    apply Prod.Lex.left
    simp [labelNeed, h2]
  · apply Prod.Lex.left
    simp
  · apply Prod.Lex.right
    apply Prod.Lex.right
    simp only [gapSize, List.length_append, List.length_cons, List.length_nil]
    omega

/-- Assembly of one physical row from one row bucket: the loop started with
`ci = 0`, `labels_count = 0`, `cur_row_name = None`, `output = []`
(lines 83-85). -/
def assemble (cols : List ColValue) : List Cell := go cols 0 none []

/-- The comment stripping the loader applies to each input line (line 15-18):
`re.sub(r"^(.*?)(//.+)?$", r"\1", line)`.  On one line (modelled without its
trailing newline, which the regular expression leaves untouched) the lazy
first group together with the optional `(//.+)` group delete everything from
the first `//` that is followed by at least one further character; a `//`
with nothing after it does not match `//.+` and is kept. -/
def stripLine : List Char → List Char
  | [] => []
  | '/' :: '/' :: _ :: _ => []
  | c :: cs => c :: stripLine cs

/-- Stated from the claim under test: strip everything from the first
occurrence of `//` to the end of the line, keeping the part before it. -/
def stripClaim : List Char → List Char
  | [] => []
  | '/' :: '/' :: _ => []
  | c :: cs => c :: stripClaim cs

/-- True when the line suffix starts with `//` followed by at least one
more character, i.e. when the `(//.+)` group of the regular expression can
match there. -/
def hasMarkerRun : List Char → Bool
  | '/' :: '/' :: _ :: _ => true
  | _ => false

/-- Python `str.split(sep)` for a one-character separator: splits at every
occurrence of the separator, so `""` gives `[""]`, `"a|"` gives
`["a", ""]` and `"a||b"` gives `["a", "", "b"]`. -/
def pySplit (sep : Char) : List Char → List (List Char)
  | [] => [[]]
  | c :: cs =>
    if c = sep then [] :: pySplit sep cs
    else
      match pySplit sep cs with
      | [] => [[c]]
      | p :: ps => (c :: p) :: ps

/-- Python `int(s)` wrapped in the script process: a failing conversion
raises and aborts the run, modelled as an `Except` error. -/
def toIntE (s : String) : Except String Int :=
  match s.toInt? with
  | some n => .ok n
  | none => .error ("ValueError: " ++ s)

/-- Parsing of one entry (lines 32-53): split `template.row` on `|` and
assert exactly two parts, split `template.column` on `|` and accept two
parts or (asserting) one part, convert the order parts with `int`, and keep
`(row_order, (row_name, col_order, col_name, elem))`. -/
def parseElem (elem : RawElem) : Except String (Int × ColValue) :=
  match pySplit '|' elem.rowField.data with
  | [p0, p1] =>
    match toIntE (String.mk p0) with
    | .error e => .error e
    | .ok row_order =>
      match pySplit '|' elem.columnField.data with
      | [c0, c1] =>
        match toIntE (String.mk c0) with
        | .error e => .error e
        | .ok col_order => .ok (row_order, ⟨String.mk p1, col_order, String.mk c1, elem⟩)
      | [c0] =>
        match toIntE (String.mk c0) with
        | .error e => .error e
        | .ok col_order => .ok (row_order, ⟨String.mk p1, col_order, "", elem⟩)
      | _ => .error "AssertionError: len(col_parts)"
  | _ => .error "AssertionError: len(row_parts) == 2"

/-- The `for elem in data` loop (lines 32-53): the first failing entry
aborts the whole run. -/
def parseAll : List RawElem → Except String (List (Int × ColValue))
  | [] => .ok []
  | e :: rest =>
    match parseElem e with
    | .error msg => .error msg
    | .ok p =>
      match parseAll rest with
      | .error msg => .error msg
      | .ok ps => .ok (p :: ps)

/-- The distinct row orders, visited in ascending order (line 76,
`sorted(d.keys())`). -/
def sortedKeys (pairs : List (Int × ColValue)) : List Int :=
  ((pairs.map Prod.fst).dedup).mergeSort (fun a b => decide (a ≤ b))

/-- The bucket `d[k]` for one row order: the entries with that row order in
input order, stably sorted by `col_order` (lines 52-57, Python `sorted`
with `key=itemgetter(1)` is stable, as is `List.mergeSort`). -/
def bucket (pairs : List (Int × ColValue)) (k : Int) : List ColValue :=
  ((pairs.filter (fun p => p.1 == k)).map Prod.snd).mergeSort
    (fun a b => decide (a.col_order ≤ b.col_order))

/-- One cell of the color sub-row (lines 103-111).  The script tests the
cell with Python truthiness, so an empty label string is rendered like the
`None` blank cell. -/
def renderColorCell : Cell → String
  | Cell.label s =>
    if s = "" then "<td style=\x27width: 50px;\x27>&nbsp;</td>"
    else "<td valign=\x27middle\x27 align=\x27right\x27 style=\x27padding-right:5px;font-size:10px;\x27>"
      ++ s ++ "</td>"
  | Cell.data cv =>
    "<td bgcolor=\x27" ++ cv.material.color_key
      ++ "\x27class=\x27border_top\x27 style=\x27width: 50px;\x27>&nbsp;</td>"
  | Cell.blank => "<td style=\x27width: 50px;\x27>&nbsp;</td>"

/-- One cell of the name sub-row (lines 115-122); falsy and label cells all
render as `<td/>`. -/
def renderNameCell : Cell → String
  | Cell.data cv => "<td style=\x27font-size:8px;\x27>" ++ cv.col_name ++ "</td>"
  | _ => "<td/>"

/-- One cell of the numeric sub-row (lines 127-137); the numeric text is
emitted only in structural mode. -/
def renderDataCell (is_structural : Bool) : Cell → String
  | Cell.data cv =>
    "<td style=\x27font-size:8px;\x27>"
      ++ (if is_structural then
            cv.material.mass_text ++ "|" ++ cv.material.strength ++ "|" ++ cv.material.stiffness
          else "")
      ++ "</td>"
  | _ => "<td/>"

/-- The three stacked sub-rows emitted for one assembled row
(lines 102-138); the first `<tr>` is never closed, exactly as in the
script. -/
def rowHtml (cells : List Cell) (is_structural : Bool) : String :=
  "<tr>" ++ String.join (cells.map renderColorCell)
    ++ "<tr>" ++ String.join (cells.map renderNameCell) ++ "</tr>"
    ++ "<tr>" ++ String.join (cells.map (renderDataCell is_structural)) ++ "</tr>"

/-- The whole HTML document (lines 64-142). -/
def generateHtml (pairs : List (Int × ColValue)) (is_structural : Bool) : String :=
  "<html><head><title>Materials Template</title>"
    ++ "<style>tr.border_top td \x7b border-top:1pt solid black;\x7d</style>"
    ++ "</head><body>"
    ++ "<table style=\x27border: 1px solid black\x27 cellpadding=0 cellspacing="
    ++ (if is_structural then "0" else "1") ++ ">"
    ++ String.join ((sortedKeys pairs).map
        (fun k => rowHtml (assemble (bucket pairs k)) is_structural))
    ++ "</table>" ++ "</body></html>"

/-- The run after the command line has been accepted: parse all entries,
then generate the document; any parse failure aborts with no document. -/
def run (elems : List RawElem) (is_structural : Bool) : Except String String :=
  match parseAll elems with
  | .error msg => .error msg
  | .ok pairs => .ok (generateHtml pairs is_structural)

/-- The content of `materials_template.html` after the run, given its prior
content: the script only reaches the final `open(..., "w")` (line 144) when
no exception was raised, so a failing run leaves the file as it was. -/
def writtenFile (prev : Option String) (elems : List RawElem) (is_structural : Bool) :
    Option String :=
  match run elems is_structural with
  | .ok h => some h
  | .error _ => prev

/-- Number of label cells in a cell sequence. -/
def labelCount (l : List Cell) : Nat :=
  l.countP (fun c => match c with | Cell.label _ => true | _ => false)

/-- The record wrapped by a data cell, if any. -/
def dataOf : Cell → Option ColValue
  | Cell.data cv => some cv
  | _ => none

/-- Number of maximal runs of consecutive equal values. -/
def countRuns : List String → Nat
  | [] => 0
  | [_] => 1
  | a :: b :: rest => (if a = b then 0 else 1) + countRuns (b :: rest)

/-- Number of label transitions seen when scanning a list of row names with
a given current name. -/
def runsFrom : Option String → List String → Nat
  | _, [] => 0
  | cur, a :: rest => (if some a = cur then 0 else 1) + runsFrom (some a) rest

/-- The text of the last label cell of a sequence, if any. -/
def lastLabel (l : List Cell) : Option String :=
  l.foldl (fun acc c => match c with | Cell.label s => some s | _ => acc) none

/-- No label cell sits strictly between positions `j` and `i`. -/
def NoLabelBetween (out : List Cell) (j i : Nat) : Prop :=
  ∀ k, j < k → k < i → ∀ s, out[k]? ≠ some (Cell.label s)

/-- Every data cell is preceded by a label cell, and the nearest label cell
before it carries that record's row name. -/
def NearestOk (out : List Cell) : Prop :=
  ∀ i cv, out[i]? = some (Cell.data cv) →
    ∃ j, j < i ∧ out[j]? = some (Cell.label cv.row_name) ∧ NoLabelBetween out j i

/-- State of the packing loop: remaining records (the cursor suffix),
`labels_count`, `cur_row_name` and the output built so far. -/
structure AState where
  cols : List ColValue
  labels_count : Nat
  cur_row_name : Option String
  output : List Cell
deriving DecidableEq

/-- One iteration of the packing loop as a step function; `none` when the
loop guard `ci < len(input_col_values)` fails. -/
def stepA : AState → Option AState
  | ⟨[], _, _, _⟩ => none
  | ⟨r :: rest, labels_count, cur_row_name, output⟩ =>
    some
      (if r.col_order + (labels_count : Int) ≤ (output.length : Int) then
        if some r.row_name ≠ cur_row_name then
          ⟨r :: rest, labels_count + 1, some r.row_name, output ++ [Cell.label r.row_name]⟩
        else
          ⟨rest, labels_count, cur_row_name, output ++ [Cell.data r]⟩
      else
        ⟨r :: rest, labels_count, cur_row_name, output ++ [Cell.blank]⟩)

/-- Iterate the loop step at most `n` times, stopping when the guard
fails. -/
def stepANat : Nat → AState → AState
  | 0, s => s
  | n + 1, s =>
    match stepA s with
    | none => s
    | some t => stepANat n t

/-- A sample payload for concrete instances. -/
def emptyElem : RawElem := ⟨"", "", "", "", "", ""⟩

/-- A record with the given row name and column order. -/
def mkCV (n : String) (c : Int) : ColValue := ⟨n, c, "", emptyElem⟩

/-- Stated from the claim under test: the color sub-row with a data cell
carrying the top border exactly when the previous cell is a label cell;
`prev` is the previous cell. -/
def renderColorRowClaim : Option Cell → List Cell → List String
  | _, [] => []
  | prev, c :: rest =>
    (match c with
      | Cell.label s =>
        if s = "" then "<td style=\x27width: 50px;\x27>&nbsp;</td>"
        else "<td valign=\x27middle\x27 align=\x27right\x27 style=\x27padding-right:5px;font-size:10px;\x27>"
          ++ s ++ "</td>"
      | Cell.data cv =>
        (match prev with
          | some (Cell.label _) =>
            "<td bgcolor=\x27" ++ cv.material.color_key
              ++ "\x27class=\x27border_top\x27 style=\x27width: 50px;\x27>&nbsp;</td>"
          | _ =>
            "<td bgcolor=\x27" ++ cv.material.color_key
              ++ "\x27 style=\x27width: 50px;\x27>&nbsp;</td>")
      | Cell.blank => "<td style=\x27width: 50px;\x27>&nbsp;</td>")
      :: renderColorRowClaim (some c) rest

/-- Well-formedness of the template fields of one entry: `row` splits on
`|` into exactly two segments, `column` into one or two. -/
def TemplatesWellFormed (e : RawElem) : Prop :=
  (pySplit '|' e.rowField.data).length = 2 ∧
    ((pySplit '|' e.columnField.data).length = 1 ∨ (pySplit '|' e.columnField.data).length = 2)

/-- A sample entry whose `row` template has three segments. -/
def badRowElem : RawElem := ⟨"1|A|B", "0", "red", "", "", ""⟩

theorem go_filterMap_dataOf (cols : List ColValue) (labels_count : Nat)
    (cur_row_name : Option String) (output : List Cell) :
    (go cols labels_count cur_row_name output).filterMap dataOf =
      output.filterMap dataOf ++ cols := by
  induction cols, labels_count, cur_row_name, output using go.induct with
  | case1 labels_count cur_row_name output => simp [go]
  | case2 labels_count cur_row_name output r rest h1 h2 ih =>
    rw [go, dif_pos h1, dif_pos h2, ih]
    simp [dataOf]
  | case3 labels_count cur_row_name output r rest h1 h2 ih =>
    rw [go, dif_pos h1, dif_neg h2, ih]
    simp [dataOf]
  | case4 labels_count cur_row_name output r rest h1 ih =>
    rw [go, dif_neg h1, ih]
    simp [dataOf]

theorem go_labelCount (cols : List ColValue) (labels_count : Nat)
    (cur_row_name : Option String) (output : List Cell) :
    labelCount (go cols labels_count cur_row_name output) =
      labelCount output + runsFrom cur_row_name (cols.map ColValue.row_name) := by
  induction cols, labels_count, cur_row_name, output using go.induct with
  | case1 labels_count cur_row_name output => simp [go, runsFrom]
  | case2 labels_count cur_row_name output r rest h1 h2 ih =>
    rw [go, dif_pos h1, dif_pos h2, ih]
    simp [labelCount, runsFrom, List.countP_append, h2]
    omega
  | case3 labels_count cur_row_name output r rest h1 h2 ih =>
    rw [go, dif_pos h1, dif_neg h2, ih]
    push_neg at h2
    simp [labelCount, runsFrom, List.countP_append, h2]
  | case4 labels_count cur_row_name output r rest h1 ih =>
    rw [go, dif_neg h1, ih]
    simp [labelCount, runsFrom, List.countP_append]

theorem runsFrom_some_eq_countRuns (l : List String) (a : String) :
    runsFrom (some a) l + 1 = countRuns (a :: l) := by
  induction l generalizing a with
  | nil => simp [runsFrom, countRuns]
  | cons b rest ih =>
    rw [countRuns, ← ih b, runsFrom]
    by_cases h : a = b
    · simp [h]
    · rw [if_neg h, if_neg (fun hc => h ((Option.some_inj.mp hc).symm))]
      omega

theorem runsFrom_none_eq_countRuns (l : List String) :
    runsFrom none l = countRuns l := by
  cases l with
  | nil => simp [runsFrom, countRuns]
  | cons a rest =>
    have := runsFrom_some_eq_countRuns rest a
    simp [runsFrom]
    omega

/-- C3: the data cells of an assembled row are exactly the bucket's records,
in order; in particular their number is the bucket's size. -/
theorem assemble_data_cells (cols : List ColValue) :
    (assemble cols).filterMap dataOf = cols ∧
      ((assemble cols).filterMap dataOf).length = cols.length := by
  have h := go_filterMap_dataOf cols 0 none []
  simp [assemble] at h ⊢
  simp [h]

/-- C4: the number of label cells of an assembled row equals the number of
maximal runs of consecutive equal row names in the bucket. -/
theorem assemble_labelCount (cols : List ColValue) :
    labelCount (assemble cols) = countRuns (cols.map ColValue.row_name) := by
  have h := go_labelCount cols 0 none []
  simp [assemble, labelCount] at h ⊢
  rw [h, runsFrom_none_eq_countRuns]

/-- Every data cell of `out` sits at or after its logical target: its
column order plus the number of label cells before it. -/
def DataAtLeastTarget (out : List Cell) : Prop :=
  ∀ i cv, out[i]? = some (Cell.data cv) →
    cv.col_order + (labelCount (out.take i) : Int) ≤ (i : Int)

theorem getElem?_append_single (out : List Cell) (c : Cell) (i : Nat)
    (h : (out ++ [c])[i]? = some c') :
    (i < out.length ∧ out[i]? = some c') ∨ (i = out.length ∧ c = c') := by
  rcases lt_trichotomy i out.length with hi | hi | hi
  · left
    rw [List.getElem?_append_left hi] at h
    exact ⟨hi, h⟩
  · right
    subst hi
    rw [List.getElem?_append_right (le_refl _)] at h
    simp at h
    subst h
    exact ⟨rfl, rfl⟩
  · exfalso
    rw [List.getElem?_eq_none] at h
    · exact Option.noConfusion h
    · simp
      omega

theorem take_append_single (out : List Cell) (c : Cell) (i : Nat) (h : i ≤ out.length) :
    (out ++ [c]).take i = out.take i := by
  rw [List.take_append_of_le_length h]

theorem labelCount_append_label (l : List Cell) (s : String) :
    labelCount (l ++ [Cell.label s]) = labelCount l + 1 := by
  simp [labelCount, List.countP_append]

theorem labelCount_append_data (l : List Cell) (cv : ColValue) :
    labelCount (l ++ [Cell.data cv]) = labelCount l := by
  simp [labelCount, List.countP_append]

theorem labelCount_append_blank (l : List Cell) :
    labelCount (l ++ [Cell.blank]) = labelCount l := by
  simp [labelCount, List.countP_append]

theorem dataAtLeastTarget_append (out : List Cell) (c : Cell) (hc : dataOf c = none)
    (h : DataAtLeastTarget out) : DataAtLeastTarget (out ++ [c]) := by
  intro i cv hget
  rcases getElem?_append_single out c i hget with ⟨hi, hg⟩ | ⟨hi, hg⟩
  · rw [take_append_single out c i (le_of_lt hi)]
    exact h i cv hg
  · rw [hg] at hc
    simp [dataOf] at hc

theorem dataAtLeastTarget_append_data (out : List Cell) (cv0 : ColValue)
    (h : DataAtLeastTarget out)
    (hle : cv0.col_order + (labelCount out : Int) ≤ (out.length : Int)) :
    DataAtLeastTarget (out ++ [Cell.data cv0]) := by
  intro i cv hget
  rcases getElem?_append_single out (Cell.data cv0) i hget with ⟨hi, hg⟩ | ⟨hi, hg⟩
  · rw [take_append_single out _ i (le_of_lt hi)]
    exact h i cv hg
  · subst hi
    rw [take_append_single out _ out.length (le_refl _), List.take_length]
    cases hg
    exact hle

theorem go_dataAtLeastTarget (cols : List ColValue) (labels_count : Nat)
    (cur_row_name : Option String) (output : List Cell)
    (hinv : labels_count = labelCount output) (h : DataAtLeastTarget output) :
    DataAtLeastTarget (go cols labels_count cur_row_name output) := by
  induction cols, labels_count, cur_row_name, output using go.induct with
  | case1 labels_count cur_row_name output =>
    rw [go]
    exact h
  | case2 labels_count cur_row_name output r rest h1 h2 ih =>
    rw [go, dif_pos h1, dif_pos h2]
    apply ih
    · rw [labelCount_append_label, ← hinv]
    · exact dataAtLeastTarget_append output _ rfl h
  | case3 labels_count cur_row_name output r rest h1 h2 ih =>
    rw [go, dif_pos h1, dif_neg h2]
    apply ih
    · rw [labelCount_append_data, ← hinv]
    · apply dataAtLeastTarget_append_data output r h
      rw [← hinv]
      exact h1
  | case4 labels_count cur_row_name output r rest h1 ih =>
    rw [go, dif_neg h1]
    apply ih
    · rw [labelCount_append_blank, ← hinv]
    · exact dataAtLeastTarget_append output _ rfl h

/-- C5 amended: each data cell lands at or after colPosition plus labels
emitted before it. -/
theorem data_cell_at_least_target (cols : List ColValue) :
    ∀ i cv, (assemble cols)[i]? = some (Cell.data cv) →
      cv.col_order + (labelCount ((assemble cols).take i) : Int) ≤ (i : Int) := by
  have h := go_dataAtLeastTarget cols 0 none [] (by simp [labelCount]) (by intro i cv hg; simp at hg)
  exact h

theorem go_prefix (cols : List ColValue) (labels_count : Nat)
    (cur_row_name : Option String) (output : List Cell) :
    ∃ t, go cols labels_count cur_row_name output = output ++ t := by
  induction cols, labels_count, cur_row_name, output using go.induct with
  | case1 labels_count cur_row_name output => exact ⟨[], by rw [go]; simp⟩
  | case2 labels_count cur_row_name output r rest h1 h2 ih =>
    obtain ⟨t, ht⟩ := ih
    exact ⟨Cell.label r.row_name :: t, by rw [go, dif_pos h1, dif_pos h2, ht]; simp⟩
  | case3 labels_count cur_row_name output r rest h1 h2 ih =>
    obtain ⟨t, ht⟩ := ih
    exact ⟨Cell.data r :: t, by rw [go, dif_pos h1, dif_neg h2, ht]; simp⟩
  | case4 labels_count cur_row_name output r rest h1 ih =>
    obtain ⟨t, ht⟩ := ih
    exact ⟨Cell.blank :: t, by rw [go, dif_neg h1, ht]; simp⟩

theorem lastLabel_append_single (l : List Cell) (c : Cell) :
    lastLabel (l ++ [c]) =
      match c with
      | Cell.label s => some s
      | _ => lastLabel l := by
  cases c <;> simp [lastLabel, List.foldl_append]

theorem lastLabel_spec (l : List Cell) (s : String) (h : lastLabel l = some s) :
    ∃ j, j < l.length ∧ l[j]? = some (Cell.label s) ∧ NoLabelBetween l j l.length := by
  induction l using List.reverseRecOn with
  | nil => simp [lastLabel] at h
  | append_singleton l c ih =>
    rw [lastLabel_append_single] at h
    cases c with
    | label s2 =>
      simp at h
      subst h
      refine ⟨l.length, by simp, ?_, ?_⟩
      · rw [List.getElem?_append_right (le_refl _)]
        simp
      · intro k hk1 hk2 s3
        simp at hk2
        omega
    | data cv =>
      obtain ⟨j, hj, hg, hnb⟩ := ih h
      refine ⟨j, by simp; omega, ?_, ?_⟩
      · rw [List.getElem?_append_left hj]
        exact hg
      · intro k hk1 hk2 s3
        simp at hk2
        rcases lt_or_eq_of_le (Nat.lt_succ_iff.mp hk2) with hk | hk
        · rw [List.getElem?_append_left hk]
          exact hnb k hk1 hk s3
        · subst hk
          rw [List.getElem?_append_right (le_refl _)]
          simp
    | blank =>
      obtain ⟨j, hj, hg, hnb⟩ := ih h
      refine ⟨j, by simp; omega, ?_, ?_⟩
      · rw [List.getElem?_append_left hj]
        exact hg
      · intro k hk1 hk2 s3
        simp at hk2
        rcases lt_or_eq_of_le (Nat.lt_succ_iff.mp hk2) with hk | hk
        · rw [List.getElem?_append_left hk]
          exact hnb k hk1 hk s3
        · subst hk
          rw [List.getElem?_append_right (le_refl _)]
          simp

theorem nearestOk_append (out : List Cell) (c : Cell) (hc : dataOf c = none)
    (h : NearestOk out) : NearestOk (out ++ [c]) := by
  intro i cv hget
  rcases getElem?_append_single out c i hget with ⟨hi, hg⟩ | ⟨hi, hg⟩
  · obtain ⟨j, hji, hj, hnb⟩ := h i cv hg
    refine ⟨j, hji, ?_, ?_⟩
    · rw [List.getElem?_append_left (lt_trans hji hi)]
      exact hj
    · intro k hk1 hk2 s
      rw [List.getElem?_append_left (lt_trans hk2 hi)]
      exact hnb k hk1 hk2 s
  · rw [hg] at hc
    simp [dataOf] at hc

theorem nearestOk_append_data (out : List Cell) (cv0 : ColValue)
    (h : NearestOk out) (hl : lastLabel out = some cv0.row_name) :
    NearestOk (out ++ [Cell.data cv0]) := by
  intro i cv hget
  rcases getElem?_append_single out (Cell.data cv0) i hget with ⟨hi, hg⟩ | ⟨hi, hg⟩
  · obtain ⟨j, hji, hj, hnb⟩ := h i cv hg
    refine ⟨j, hji, ?_, ?_⟩
    · rw [List.getElem?_append_left (lt_trans hji hi)]
      exact hj
    · intro k hk1 hk2 s
      rw [List.getElem?_append_left (lt_trans hk2 hi)]
      exact hnb k hk1 hk2 s
  · subst hi
    cases hg
    obtain ⟨j, hj, hg2, hnb⟩ := lastLabel_spec out _ hl
    refine ⟨j, hj, ?_, ?_⟩
    · rw [List.getElem?_append_left hj]
      exact hg2
    · intro k hk1 hk2 s
      rw [List.getElem?_append_left hk2]
      exact hnb k hk1 hk2 s

theorem go_nearestOk (cols : List ColValue) (labels_count : Nat)
    (cur_row_name : Option String) (output : List Cell)
    (hinv : cur_row_name = lastLabel output) (h : NearestOk output) :
    NearestOk (go cols labels_count cur_row_name output) := by
  induction cols, labels_count, cur_row_name, output using go.induct with
  | case1 labels_count cur_row_name output =>
    rw [go]
    exact h
  | case2 labels_count cur_row_name output r rest h1 h2 ih =>
    rw [go, dif_pos h1, dif_pos h2]
    apply ih
    · rw [lastLabel_append_single]
    · exact nearestOk_append output _ rfl h
  | case3 labels_count cur_row_name output r rest h1 h2 ih =>
    push_neg at h2
    rw [go, dif_pos h1, dif_neg (by simp [h2])]
    apply ih
    · rw [lastLabel_append_single]
      exact hinv
    · apply nearestOk_append_data output r h
      rw [← hinv, ← h2]
  | case4 labels_count cur_row_name output r rest h1 ih =>
    rw [go, dif_neg h1]
    apply ih
    · rw [lastLabel_append_single]
      exact hinv
    · exact nearestOk_append output _ rfl h

/-- C10: the first cell of a nonempty assembled row is a label (col order
at most zero) or a blank, never a data cell, and every data cell is
preceded by a label cell whose text is that record's row name, with no
label cell in between. -/
theorem assemble_data_preceded_by_label (r0 : ColValue) (rest : List ColValue) :
    (assemble (r0 :: rest)).head? =
      some (if r0.col_order ≤ 0 then Cell.label r0.row_name else Cell.blank)
    ∧ NearestOk (assemble (r0 :: rest)) := by
  constructor
  · by_cases hc : r0.col_order ≤ 0
    · rw [if_pos hc, assemble, go, dif_pos (by simpa using hc), dif_pos (by simp)]
      obtain ⟨t, ht⟩ := go_prefix (r0 :: rest) (0 + 1) (some r0.row_name) ([] ++ [Cell.label r0.row_name])
      rw [ht]
      simp
    · rw [if_neg hc, assemble, go, dif_neg (by simpa using hc)]
      obtain ⟨t, ht⟩ := go_prefix (r0 :: rest) 0 none ([] ++ [Cell.blank])
      rw [ht]
      simp
  · apply go_nearestOk
    · simp [lastLabel]
    · intro i cv hg
      simp at hg

theorem stepA_progress (s t : AState) (h : stepA s = some t) :
    t.cols.length < s.cols.length ∨ s.output.length < t.output.length := by
  obtain ⟨cols, labels_count, cur_row_name, output⟩ := s
  cases cols with
  | nil => simp [stepA] at h
  | cons r rest =>
    rw [stepA] at h
    cases h
    by_cases h1 : r.col_order + (labels_count : Int) ≤ (output.length : Int)
    · by_cases h2 : some r.row_name ≠ cur_row_name
      · right
        rw [if_pos h1, if_pos h2]
        simp
      · right
        rw [if_pos h1, if_neg h2]
        simp
    · right
      rw [if_neg h1]
      simp

theorem stepANat_reaches_go (cols : List ColValue) (labels_count : Nat)
    (cur_row_name : Option String) (output : List Cell) :
    ∃ n l c, stepANat n ⟨cols, labels_count, cur_row_name, output⟩ =
      ⟨[], l, c, go cols labels_count cur_row_name output⟩ := by
  induction cols, labels_count, cur_row_name, output using go.induct with
  | case1 labels_count cur_row_name output =>
    exact ⟨0, labels_count, cur_row_name, by rw [go, stepANat]⟩
  | case2 labels_count cur_row_name output r rest h1 h2 ih =>
    obtain ⟨n, l, c, hn⟩ := ih
    refine ⟨n + 1, l, c, ?_⟩
    rw [stepANat, stepA]
    simp only [if_pos h1, if_pos h2]
    rw [go, dif_pos h1, dif_pos h2]
    exact hn
  | case3 labels_count cur_row_name output r rest h1 h2 ih =>
    obtain ⟨n, l, c, hn⟩ := ih
    refine ⟨n + 1, l, c, ?_⟩
    rw [stepANat, stepA]
    simp only [if_pos h1, if_neg h2]
    rw [go, dif_pos h1, dif_neg h2]
    exact hn
  | case4 labels_count cur_row_name output r rest h1 ih =>
    obtain ⟨n, l, c, hn⟩ := ih
    refine ⟨n + 1, l, c, ?_⟩
    rw [stepANat, stepA]
    simp only [if_neg h1]
    rw [go, dif_neg h1]
    exact hn

/-- C6: each loop iteration advances the cursor or grows the output, and
for every finite bucket some number of iterations empties the cursor,
leaving exactly the assembled row. -/
theorem packing_loop_terminates :
    (∀ s t : AState, stepA s = some t →
      t.cols.length < s.cols.length ∨ s.output.length < t.output.length)
    ∧ ∀ cols : List ColValue, ∃ n l c,
        stepANat n ⟨cols, 0, none, []⟩ = ⟨[], l, c, assemble cols⟩ := by
  exact ⟨stepA_progress, fun cols => stepANat_reaches_go cols 0 none []⟩

/-- C1 amended: a single record at column position 3 yields three blanks,
then its label, then its data cell (length 5, data at physical index 4). -/
theorem single_record_col3_row (r : ColValue) (h : r.col_order = 3) :
    assemble [r] = [Cell.blank, Cell.blank, Cell.blank, Cell.label r.row_name, Cell.data r] := by
  simp [assemble, go, h]

/-- C1 counterexample: the claimed row `[Label, Blank, Blank, Data]` is not
what a single record with column position 3 produces. -/
theorem single_record_col3_row_counterexample :
    assemble [mkCV "A" 3] ≠
      [Cell.label "A", Cell.blank, Cell.blank, Cell.data (mkCV "A" 3)] := by
  have h : assemble [mkCV "A" 3] =
      [Cell.blank, Cell.blank, Cell.blank, Cell.label "A", Cell.data (mkCV "A" 3)] := by
    simp [assemble, go, mkCV]
  rw [h]
  decide

theorem single_record_col3_row_witness :
    (mkCV "A" 3).col_order = 3 ∧
      assemble [mkCV "A" 3] =
        [Cell.blank, Cell.blank, Cell.blank, Cell.label "A", Cell.data (mkCV "A" 3)] :=
  ⟨rfl, single_record_col3_row (mkCV "A" 3) rfl⟩

/-- C2 amended: with two records at column position 0 under labels `A` then
`B`, both records are placed: the row is label `A`, data, label `B`,
data. -/
theorem two_records_same_col (a b : ColValue) (ha1 : a.row_name = "A") (ha2 : a.col_order = 0)
    (hb1 : b.row_name = "B") (hb2 : b.col_order = 0) :
    assemble [a, b] = [Cell.label "A", Cell.data a, Cell.label "B", Cell.data b] := by
  simp [assemble, go, ha1, ha2, hb1, hb2]

/-- C2 counterexample: the claimed row `[Label "A", Label "B", Data rec1]`
is not produced; in particular rec0 is not dropped. -/
theorem two_records_same_col_counterexample :
    assemble [mkCV "A" 0, mkCV "B" 0] ≠
      [Cell.label "A", Cell.label "B", Cell.data (mkCV "B" 0)]
    ∧ Cell.data (mkCV "A" 0) ∈ assemble [mkCV "A" 0, mkCV "B" 0] := by
  have h : assemble [mkCV "A" 0, mkCV "B" 0] =
      [Cell.label "A", Cell.data (mkCV "A" 0), Cell.label "B", Cell.data (mkCV "B" 0)] := by
    simp [assemble, go, mkCV]
  rw [h]
  constructor
  · decide
  · decide

theorem two_records_same_col_witness :
    (mkCV "A" 0).row_name = "A" ∧ (mkCV "A" 0).col_order = 0 ∧
      (mkCV "B" 0).row_name = "B" ∧ (mkCV "B" 0).col_order = 0 ∧
      assemble [mkCV "A" 0, mkCV "B" 0] =
        [Cell.label "A", Cell.data (mkCV "A" 0), Cell.label "B", Cell.data (mkCV "B" 0)] :=
  ⟨rfl, rfl, rfl, rfl, two_records_same_col (mkCV "A" 0) (mkCV "B" 0) rfl rfl rfl rfl⟩

/-- C5 counterexample: in the row for records `A` and `B` both at column
position 0, the data cell of the second record lands at physical index 3,
not at its column position plus the two labels before it. -/
theorem data_cell_target_counterexample :
    (assemble [mkCV "A" 0, mkCV "B" 0])[3]? = some (Cell.data (mkCV "B" 0))
    ∧ ¬ ((mkCV "B" 0).col_order +
          (labelCount ((assemble [mkCV "A" 0, mkCV "B" 0]).take 3) : Int) = (3 : Int)) := by
  have h : assemble [mkCV "A" 0, mkCV "B" 0] =
      [Cell.label "A", Cell.data (mkCV "A" 0), Cell.label "B", Cell.data (mkCV "B" 0)] := by
    simp [assemble, go, mkCV]
  rw [h]
  constructor
  · decide
  · decide

theorem data_cell_at_least_target_witness :
    (assemble [mkCV "A" 0])[1]? = some (Cell.data (mkCV "A" 0)) ∧
      (mkCV "A" 0).col_order +
        (labelCount ((assemble [mkCV "A" 0]).take 1) : Int) ≤ (1 : Int) := by
  have h : assemble [mkCV "A" 0] = [Cell.label "A", Cell.data (mkCV "A" 0)] := by
    simp [assemble, go, mkCV]
  refine ⟨by rw [h]; rfl, data_cell_at_least_target [mkCV "A" 0] 1 (mkCV "A" 0) (by rw [h]; rfl)⟩

/-- C7 counterexample: on the line `x//` the script keeps the line whole
(the `//.+` group needs a character after the marker), while the claimed
stripping would leave only `x`. -/
theorem stripLine_counterexample :
    stripLine ['x', '/', '/'] ≠ stripClaim ['x', '/', '/']
    ∧ stripLine ['x', '/', '/'] = ['x', '/', '/']
    ∧ stripClaim ['x', '/', '/'] = ['x'] := by
  refine ⟨by decide, by decide, by decide⟩

/-- C7 amended: the loader removes everything from the first occurrence of
`//` that has at least one further character after it on the line; when no
such occurrence exists (in particular for a bare trailing `//`) the line is
kept unchanged. -/
theorem stripLine_characterization (l : List Char) :
    (∀ i, (∀ j, j < i → hasMarkerRun (l.drop j) = false) →
      hasMarkerRun (l.drop i) = true → stripLine l = l.take i)
    ∧ ((∀ j, hasMarkerRun (l.drop j) = false) → stripLine l = l) := by
  induction l using stripLine.induct with
  | case1 =>
    constructor
    · intro i _ hi
      simp [List.drop_nil] at hi
      cases hi
    · intro _
      rfl
  | case2 d rest =>
    constructor
    · intro i hmin hi
      rcases Nat.eq_zero_or_pos i with hz | hp
      · subst hz
        rfl
      · exfalso
        have h0 := hmin 0 hp
        simp [hasMarkerRun] at h0
    · intro hall
      have h0 := hall 0
      simp [hasMarkerRun] at h0
  | case3 c cs hno ih =>
    have hrw := stripLine.eq_3 c cs hno
    have hm0 : hasMarkerRun (c :: cs) = false := by
      apply hasMarkerRun.eq_2
      intro hd tl hct
      cases hct
      exact hno hd tl rfl rfl
    constructor
    · intro i hmin hi
      cases i with
      | zero =>
        rw [List.drop] at hi
        rw [hm0] at hi
        cases hi
      | succ i2 =>
        rw [hrw]
        have hi2 : hasMarkerRun (cs.drop i2) = true := by
          rw [List.drop_succ_cons] at hi
          exact hi
        have hmin2 : ∀ j, j < i2 → hasMarkerRun (cs.drop j) = false := by
          intro j hj
          have := hmin (j + 1) (by omega)
          rw [List.drop_succ_cons] at this
          exact this
        rw [ih.1 i2 hmin2 hi2]
        rfl
    · intro hall
      rw [hrw]
      have hall2 : ∀ j, hasMarkerRun (cs.drop j) = false := by
        intro j
        have := hall (j + 1)
        rw [List.drop_succ_cons] at this
        exact this
      rw [ih.2 hall2]

theorem stripLine_characterization_witness :
    stripLine ['a', '/', '/', 'b'] = List.take 1 ['a', '/', '/', 'b'] :=
  (stripLine_characterization ['a', '/', '/', 'b']).1 1
    (fun j hj => by
      have hj0 : j = 0 := by omega
      subst hj0
      decide)
    (by decide)

theorem parseElem_error_of_malformed (e : RawElem) (h : ¬ TemplatesWellFormed e) :
    ∃ msg, parseElem e = .error msg := by
  rw [parseElem]
  split
  · rename_i p0 p1 hrow
    split
    · exact ⟨_, rfl⟩
    · split
      · rename_i c0 c1 hcol
        exfalso
        apply h
        exact ⟨by rw [hrow]; rfl, Or.inr (by rw [hcol]; rfl)⟩
      · rename_i c0 hcol
        exfalso
        apply h
        exact ⟨by rw [hrow]; rfl, Or.inl (by rw [hcol]; rfl)⟩
      · exact ⟨_, rfl⟩
  · exact ⟨_, rfl⟩

theorem parseAll_error_of_mem (elems : List RawElem) (e : RawElem) (he : e ∈ elems)
    (herr : ∃ msg, parseElem e = .error msg) : ∃ msg, parseAll elems = .error msg := by
  induction elems with
  | nil => cases he
  | cons f rest ih =>
    rw [parseAll]
    rcases List.mem_cons.mp he with hf | hmem
    · subst hf
      obtain ⟨msg, hmsg⟩ := herr
      rw [hmsg]
      exact ⟨msg, rfl⟩
    · cases hf : parseElem f with
      | error msg => exact ⟨msg, rfl⟩
      | ok p =>
        obtain ⟨msg, hmsg⟩ := ih hmem
        rw [hmsg]
        exact ⟨msg, rfl⟩

/-- C8: any entry whose template fields do not have the required segment
counts makes the whole run fail, and the output file is left untouched. -/
theorem malformed_template_aborts (elems : List RawElem) (is_structural : Bool)
    (prev : Option String) (h : ∃ e ∈ elems, ¬ TemplatesWellFormed e) :
    (∃ msg, run elems is_structural = .error msg)
    ∧ writtenFile prev elems is_structural = prev := by
  obtain ⟨e, he, hbad⟩ := h
  obtain ⟨msg, hmsg⟩ := parseAll_error_of_mem elems e he (parseElem_error_of_malformed e hbad)
  refine ⟨⟨msg, ?_⟩, ?_⟩
  · rw [run, hmsg]
  · rw [writtenFile, run, hmsg]

theorem malformed_template_aborts_witness :
    (∃ msg, run [badRowElem] true = .error msg)
    ∧ writtenFile (some "previous") [badRowElem] true = some "previous" :=
  malformed_template_aborts [badRowElem] true (some "previous")
    ⟨badRowElem, by simp, by unfold TemplatesWellFormed badRowElem; decide⟩

/-- C9 counterexample: in the color sub-row of the assembled bucket with
records `A` at columns 0 and 1, the second data cell is not the first cell
after a label, yet its markup still carries the `border_top` class; the
claimed position-dependent rendering differs. -/
theorem border_top_counterexample :
    (assemble [mkCV "A" 0, mkCV "A" 1]).map renderColorCell ≠
      renderColorRowClaim none (assemble [mkCV "A" 0, mkCV "A" 1]) := by
  have h : assemble [mkCV "A" 0, mkCV "A" 1] =
      [Cell.label "A", Cell.data (mkCV "A" 0), Cell.data (mkCV "A" 1)] := by
    simp [assemble, go, mkCV]
  rw [h]
  decide

/-- C9 amended: every data cell of the color sub-row carries the
`border_top` class in its markup, whatever the preceding cell is. -/
theorem border_top_on_every_data_cell (cells : List Cell) (i : Nat) (cv : ColValue)
    (h : cells[i]? = some (Cell.data cv)) :
    (cells.map renderColorCell)[i]? =
      some ("<td bgcolor=\x27" ++ cv.material.color_key
        ++ "\x27class=\x27border_top\x27 style=\x27width: 50px;\x27>&nbsp;</td>") := by
  rw [List.getElem?_map, h]
  rfl

theorem border_top_on_every_data_cell_witness :
    ([Cell.blank, Cell.data (mkCV "A" 0)].map renderColorCell)[1]? =
      some ("<td bgcolor=\x27" ++ (mkCV "A" 0).material.color_key
        ++ "\x27class=\x27border_top\x27 style=\x27width: 50px;\x27>&nbsp;</td>") :=
  border_top_on_every_data_cell [Cell.blank, Cell.data (mkCV "A" 0)] 1 (mkCV "A" 0) rfl

theorem packing_loop_terminates_witness :
    ((AState.mk [mkCV "A" 0] 1 (some "A") [Cell.label "A"]).cols.length <
        (AState.mk [mkCV "A" 0] 0 none []).cols.length ∨
      (AState.mk [mkCV "A" 0] 0 none []).output.length <
        (AState.mk [mkCV "A" 0] 1 (some "A") [Cell.label "A"]).output.length)
    ∧ ∃ n l c, stepANat n ⟨[mkCV "A" 0], 0, none, []⟩ = ⟨[], l, c, assemble [mkCV "A" 0]⟩ :=
  ⟨packing_loop_terminates.1 _ _ (by decide), packing_loop_terminates.2 [mkCV "A" 0]⟩

theorem assemble_data_preceded_by_label_witness :
    (assemble [mkCV "A" 0]).head? = some (Cell.label "A")
    ∧ ∃ j, j < 1 ∧ (assemble [mkCV "A" 0])[j]? = some (Cell.label (mkCV "A" 0).row_name)
        ∧ NoLabelBetween (assemble [mkCV "A" 0]) j 1 := by
  have h := assemble_data_preceded_by_label (mkCV "A" 0) []
  have heval : assemble [mkCV "A" 0] = [Cell.label "A", Cell.data (mkCV "A" 0)] := by
    simp [assemble, go, mkCV]
  refine ⟨?_, ?_⟩
  · rw [h.1]
    rfl
  · exact h.2 1 (mkCV "A" 0) (by rw [heval]; rfl)
